import Mathlib

/-!
Verification development for the `mqv` Markdown terminal renderer
(`src/renderer.rs`, `src/highlighter.rs`).

Rust strings are modelled as lists of Unicode codepoints (`Str := List Char`);
all width arithmetic in the source is done in codepoints (`chars().count()`),
so this model is exact for the measured quantities.  Byte indices returned by
`str::find` are used by the source only to slice at the same boundaries, so a
codepoint-index model is faithful.  ANSI styling from the `colored` crate is
modelled by explicit SGR escape wrappers.
-/

abbrev Str := List Char

def S (s : String) : Str := s.data

/-- Unicode White_Space predicate, as used by Rust `char::is_whitespace`. -/
def isRustWhitespace (c : Char) : Bool :=
  let n := c.toNat
  n == 0x20 || (0x09 ≤ n && n ≤ 0x0D) || n == 0x85 || n == 0xA0 ||
  n == 0x1680 || (0x2000 ≤ n && n ≤ 0x200A) || n == 0x2028 || n == 0x2029 ||
  n == 0x202F || n == 0x205F || n == 0x3000

/-- Rust `str::trim_start`. -/
def trimStart (s : Str) : Str := s.dropWhile isRustWhitespace

/-- Rust `str::trim_end`. -/
def trimEnd (s : Str) : Str := (s.reverse.dropWhile isRustWhitespace).reverse

/-- Rust `str::trim`. -/
def trimStr (s : Str) : Str := trimEnd (trimStart s)

/-- Rust `u8::to_ascii_lowercase`, lifted to codepoints. -/
def asciiLowerChar (c : Char) : Char :=
  if 0x41 ≤ c.toNat ∧ c.toNat ≤ 0x5A then Char.ofNat (c.toNat + 32) else c

/-- Rust `str::eq_ignore_ascii_case`: equal lengths and bytewise equality after
ASCII lowercasing.  `List.map` preserves length, so list equality covers the
length check. -/
def eqIgnoreAsciiCase (a b : Str) : Bool :=
  a.map asciiLowerChar == b.map asciiLowerChar

/-- `colored::Color` values used by the callout table. -/
inductive CColor where
  | blue | green | magenta | yellow | red
  deriving DecidableEq

/-- GitHub-style callout descriptor (`struct Callout` in `renderer.rs`). -/
structure Callout where
  icon : Str
  color : CColor
  name : Str
  deriving DecidableEq

/-- The fixed `CALLOUTS` table from `renderer.rs`. -/
def CALLOUTS : List (Str × Callout) :=
  [ (S "NOTE", ⟨S "ℹ️", .blue, S "Note"⟩),
    (S "TIP", ⟨S "💡", .green, S "Tip"⟩),
    (S "IMPORTANT", ⟨S "❗", .magenta, S "Important"⟩),
    (S "WARNING", ⟨S "⚠️", .yellow, S "Warning"⟩),
    (S "CAUTION", ⟨S "🔥", .red, S "Caution"⟩) ]

/-- `detect_callout` from `renderer.rs` (lines 137-149). -/
def detectCallout (text : Str) : Option Callout :=
  let trimmed := trimStr text
  if (S "[!").isPrefixOf trimmed && trimmed.contains ']' then
    match trimmed.findIdx? (· == ']') with
    | some e =>
        (CALLOUTS.find? (fun p => eqIgnoreAsciiCase p.1 ((trimmed.take e).drop 2))).map (·.2)
    | none => none
  else none

/-- `make_clickable_link` from `renderer.rs` (lines 66-69):
`format!("\x1b]8;;{}\x1b\\{}\x1b]8;;\x1b\\", url, display_text)`. -/
def makeClickableLink (url displayText : Str) : Str :=
  S "\x1b]8;;" ++ url ++ S "\x1b\\" ++ displayText ++ S "\x1b]8;;\x1b\\"

/-- `mq_markdown::TableAlignKind`. -/
inductive AlignKind where
  | left | right | center | none
  deriving DecidableEq

/-- The `mq_markdown::Node` document tree, restricted to the fields the
renderer reads.  Variants the renderer's final `_` arm ignores (they have no
children reachable through `get_node_children`) are collapsed into `other`. -/
inductive Node where
  | heading (depth : Nat) (values : List Node)
  | text (value : Str)
  | strong (values : List Node)
  | emphasis (values : List Node)
  | codeInline (value : Str)
  | code (value : Str) (lang : Option Str)
  | link (values : List Node) (url : Str)
  | image (alt : Str) (url : Str)
  | list (ordered : Bool) (index : Nat) (checked : Option Bool) (values : List Node)
  | blockquote (values : List Node)
  | horizontalRule
  | html (value : Str)
  | lineBreak
  | fragment (values : List Node)
  | tableCell (values : List Node) (column : Nat) (row : Nat)
      (lastCellInRow : Bool) (lastCellOfInTable : Bool)
  | tableHeader (align : List AlignKind)
  | tableRow (values : List Node)
  | other

/-- `needs_space_before` from `renderer.rs` (lines 627-632). -/
def needsSpaceBefore : Node → Bool
  | .link _ _ | .strong _ | .emphasis _ | .codeInline _ => true
  | _ => false

/-- Rust `str::ends_with(' ')`. -/
def endsWithSpace (s : Str) : Bool := s.getLast? == some ' '

mutual
/-- The accumulator loop of `render_inline_content` (lines 599-625): `first`
models `i = 0`, `acc` models `result`. -/
def riGo (first : Bool) (acc : Str) : List Node → Str
  | [] => acc
  | n :: ns =>
      let acc1 := if !first && needsSpaceBefore n && !endsWithSpace acc then
        acc ++ [' '] else acc
      riGo false (acc1 ++ contrib n) ns
termination_by l => sizeOf l

/-- The per-node string contribution inside `render_inline_content`'s match. -/
def contrib : Node → Str
  | .text v => v
  | .codeInline v => S "`" ++ v ++ S "`"
  | .strong vs => riGo true [] vs
  | .emphasis vs => riGo true [] vs
  | .link vs url =>
      let t := riGo true [] vs
      if (trimStr t).isEmpty then S "🔗 " ++ makeClickableLink url url
      else S "🔗 " ++ makeClickableLink url t
  | _ => []
termination_by n => sizeOf n
end

/-- `render_inline_content` from `renderer.rs` (lines 599-625). -/
def renderInlineContent (nodes : List Node) : Str := riGo true [] nodes

/-- Flattened display width of a cell's children, in codepoints
(`content.chars().count()` in the source). -/
def cellWidth (values : List Node) : Nat := (renderInlineContent values).length

/-- The resize-and-max step shared by both branches of
`calculate_column_widths` (lines 743-746 and 754-757). -/
def colUpdate (ws : List Nat) (col width : Nat) : List Nat :=
  let ws1 := if ws.length ≤ col then ws ++ List.replicate (col + 1 - ws.length) 0 else ws
  ws1.set col (max (ws1.getD col 0) width)

/-- `calculate_column_widths` from `renderer.rs` (lines 732-764). -/
def calculateColumnWidths (nodes : List Node) : List Nat :=
  nodes.foldl (fun ws n =>
    match n with
    | .tableRow vs =>
        vs.enum.foldl (fun ws1 p =>
          match p.2 with
          | .tableCell cvs _ _ _ _ => colUpdate ws1 p.1 (cellWidth cvs)
          | _ => ws1) ws
    | .tableCell cvs col _ _ _ => colUpdate ws col (cellWidth cvs)
    | _ => ws) []

/-- Specification view of a table run: the `(column, flattened width)` pairs of
every cell the width pass visits, in document order.  Row-wrapped cells use
their position inside the row (the `enumerate` index in the source); standalone
cells use their `column` field. -/
def cellEntries (nodes : List Node) : List (Nat × Nat) :=
  nodes.flatMap (fun n =>
    match n with
    | .tableRow vs =>
        vs.enum.filterMap (fun p =>
          match p.2 with
          | .tableCell cvs _ _ _ _ => some (p.1, cellWidth cvs)
          | _ => Option.none)
    | .tableCell cvs col _ _ _ => [(col, cellWidth cvs)]
    | _ => [])

/-- Maximum of a list of naturals (`0` for the empty list). -/
def listMax (l : List Nat) : Nat := l.foldr max 0

/-! ## Syntax highlighter (`highlighter.rs`)

`tree_sitter_highlight` is an external crate; its event stream is the boundary
of the core.  `SyntaxHighlighter::highlight` is embedded with the event list
(and the fallibility of config construction and of the highlight call) as
explicit parameters, exactly mirroring the source's control flow around them. -/

/-- `tree_sitter_highlight::HighlightEvent`, plus `err` for the `Err(_)` items
of the event iterator, which the source's loop skips. -/
inductive HEvent where
  | source (start stop : Nat)
  | hstart (idx : Nat)
  | hend
  | err

/-- `SyntaxHighlighter::get_color_for_highlight` (lines 187-217). -/
def getColorForHighlight (idx : Nat) : Str :=
  match idx with
  | 0 => S "\x1b[36m"
  | 1 => S "\x1b[35m"
  | 2 => S "\x1b[33m"
  | 3 => S "\x1b[34m"
  | 4 => S "\x1b[95m"
  | 5 => S "\x1b[37m"
  | 6 => S "\x1b[36m"
  | 7 => S "\x1b[90m"
  | 8 => S "\x1b[90m"
  | 9 => S "\x1b[90m"
  | 10 => S "\x1b[32m"
  | 11 => S "\x1b[92m"
  | 12 => S "\x1b[34m"
  | 13 => S "\x1b[33m"
  | 14 => S "\x1b[93m"
  | 15 => S "\x1b[37m"
  | 16 => S "\x1b[35m"
  | 17 => S "\x1b[36m"
  | 18 => S "\x1b[90m"
  | 19 => S "\x1b[35m"
  | 20 => S "\x1b[35m"
  | 21 => S "\x1b[36m"
  | 22 => S "\x1b[33m"
  | 23 => S "\x1b[36m"
  | 24 => S "\x1b[33m"
  | 25 => S "\x1b[37m"
  | _ => S "\x1b[0m"

/-- The language tags recognized by `get_highlight_config` (lines 31-96). -/
def recognizedLangs : List Str :=
  [S "rust", S "rs", S "javascript", S "js", S "typescript", S "ts", S "tsx",
   S "python", S "py", S "go", S "html", S "css", S "json", S "bash", S "sh",
   S "c", S "cpp", S "c++", S "cxx", S "java", S "hs", S "haskell", S "elm", S "mq"]

/-- Rust `str::to_lowercase`, restricted to the mappings that can reach the
ASCII-only tag vocabulary: ASCII uppercase letters, plus the Kelvin sign
U+212A (whose Unicode lowercase is ASCII `k`).  All other codepoints either
map to themselves or to non-ASCII text and can never equal a recognized tag. -/
def toLowercaseModel (s : Str) : Str :=
  s.map (fun c => if c = 'K' then 'k' else asciiLowerChar c)

/-- The event-consuming loop of `SyntaxHighlighter::highlight`
(lines 152-183), including the final push of `code[current_pos..]`.
Slices are total (`take`/`drop`); the source would panic on ill-ordered
spans, which never arise from the external iterator. -/
def highlightLoop (code : Str) : Nat → List HEvent → Str
  | cur, [] => code.drop cur
  | cur, .source s e :: rest =>
      ((code.take s).drop cur) ++ ((code.take e).drop s) ++ highlightLoop code e rest
  | cur, .hstart i :: rest => getColorForHighlight i ++ highlightLoop code cur rest
  | cur, .hend :: rest => S "\x1b[0m" ++ highlightLoop code cur rest
  | cur, .err :: rest => highlightLoop code cur rest

/-- `SyntaxHighlighter::highlight` (lines 134-184).  `cfgOk` models success of
`HighlightConfiguration::new` inside `get_highlight_config`; `extResult` models
the external `highlighter.highlight` call: `none` is its `Err` case, otherwise
the event list it yields. -/
def shHighlight (code : Str) (lang : Option Str) (cfgOk : Bool)
    (extResult : Option (List HEvent)) : Str :=
  match lang with
  | Option.none => code
  | Option.some l =>
      if recognizedLangs.contains (toLowercaseModel l) && cfgOk then
        match extResult with
        | Option.none => code
        | Option.some evs => highlightLoop code 0 evs
      else code

/-- Well-formedness of an event stream relative to `code` and the running
`current_pos`: source spans are ordered, within bounds, and monotone.  This is
what the tree-sitter iterator guarantees. -/
def okSpans (code : Str) : Nat → List HEvent → Bool
  | _, [] => true
  | cur, .source s e :: rest =>
      cur ≤ s && s ≤ e && e ≤ code.length && okSpans code e rest
  | cur, .hstart _ :: rest => okSpans code cur rest
  | cur, .hend :: rest => okSpans code cur rest
  | cur, .err :: rest => okSpans code cur rest

/-! ## The renderer (`renderer.rs`)

The output sink (`W: Write`) is modelled as a `Writer` carrying a failure
schedule: the `k`-th `write!`/`writeln!` call either succeeds (appending its
formatted chunk) or returns the scheduled `io` error, which every render
function propagates exactly as Rust's `?` does, via `Except`.  `colored`
styling is rendered as concrete SGR escape wrappers (colors enabled). -/

/-- The fallible output sink.  `sched k` is the outcome of the `k`-th write
call: `none` succeeds, `some e` fails with error `e`. -/
structure Sink where
  sched : Nat → Option String
  written : List Str
  count : Nat

/-- One `write!`/`writeln!` call: appends the formatted chunk or fails with
the scheduled error. -/
def wWrite (w : Sink) (s : Str) : Except String Sink :=
  match w.sched w.count with
  | Option.some e => .error e
  | Option.none => .ok { w with written := w.written ++ [s], count := w.count + 1 }

/-- ANSI SGR wrapper, the output form of the `colored` crate:
`ESC [ codes m text ESC [ 0 m`. -/
def sgr (codes : String) (s : Str) : Str :=
  S "\x1b[" ++ S codes ++ S "m" ++ s ++ S "\x1b[0m"

/-- External collaborators threaded through the traversal: the syntax
highlighter (`SyntaxHighlighter`, semantically stateless per call) and the
best-effort terminal image display (`render_image_to_terminal`), whose result
the Image arm discards. -/
structure RenderCtx where
  hl : Str → Option Str → Str
  img : Str → Option String

/-- `HEADER_SYMBOLS` from `renderer.rs`. -/
def HEADER_SYMBOLS : List Str := [S "①", S "②", S "③", S "④", S "⑤", S "⑥"]

/-- `LIST_BULLETS` from `renderer.rs`. -/
def LIST_BULLETS : List Str := [S "●", S "○", S "◆", S "◇"]

/-- The bullet choice in `render_list` (lines 428-433): ordered lists use
`format!("{}.", list.index + 1)`, unordered lists index `LIST_BULLETS` by
`depth % 4`. -/
def listBullet (ordered : Bool) (index depth : Nat) : Str :=
  if ordered then S (Nat.repr (index + 1)) ++ S "."
  else LIST_BULLETS.getD (depth % LIST_BULLETS.length) (S "●")

/-- The checkbox prefix in `render_list` (lines 436-440).  The source literal
for the checked state is `"☑️ "`: U+2611 followed by the variation selector
U+FE0F and a space. -/
def checkboxStr : Option Bool → Str
  | Option.some true => S "☑️ "
  | Option.some false => S "☐ "
  | Option.none => S ""

/-- `"  ".repeat(depth)` from `render_list`. -/
def listIndent (depth : Nat) : Str := List.replicate (2 * depth) ' '

/-- The `colored` style of the callout header:
`.color(callout.color).bold()` prints as bold plus the foreground code. -/
def calloutHeaderStyle : CColor → String
  | .blue => "1;34"
  | .green => "1;32"
  | .magenta => "1;35"
  | .yellow => "1;33"
  | .red => "1;31"

/-- Extraction of the text after the callout marker
(`text.value[end + 1..].trim_start()`, lines 489-491 and 500-502); stays empty
when the raw value has no `]`, as the source's `callout_text` does. -/
def calloutTextOf (v : Str) : Str :=
  match v.findIdx? (· == ']') with
  | Option.some e => trimStart (v.drop (e + 1))
  | Option.none => []

/-- The inner scan of a `Fragment`'s children in the first phase of
`render_callout_blockquote` (lines 483-495). -/
def findTextCallout : List Node → Option (Callout × Str)
  | [] => Option.none
  | .text v :: cs =>
      match detectCallout v with
      | Option.some c => Option.some (c, calloutTextOf v)
      | Option.none => findTextCallout cs
  | _ :: cs => findTextCallout cs

/-- The first phase of `render_callout_blockquote` (lines 477-511): find the
callout descriptor and the text after the marker, first match in document
order wins. -/
def findCalloutInfo : List Node → Option (Callout × Str)
  | [] => Option.none
  | .fragment para :: rest =>
      match findTextCallout para with
      | Option.some r => Option.some r
      | Option.none => findCalloutInfo rest
  | .text v :: rest =>
      match detectCallout v with
      | Option.some c => Option.some (c, calloutTextOf v)
      | Option.none => findCalloutInfo rest
  | _ :: rest => findCalloutInfo rest

/-- The scan of a `Fragment` in the `is_callout` check (lines 336-345). -/
def fragmentHasCallout : List Node → Bool
  | [] => false
  | .text v :: cs => (detectCallout v).isSome || fragmentHasCallout cs
  | _ :: cs => fragmentHasCallout cs

/-- The `is_callout` check of the Blockquote arm (lines 331-360). -/
def isCalloutBlockquote : List Node → Bool
  | [] => false
  | .fragment para :: rest => fragmentHasCallout para || isCalloutBlockquote rest
  | .text v :: rest => (detectCallout v).isSome || isCalloutBlockquote rest
  | _ :: rest => isCalloutBlockquote rest

/-- The `line_content` accumulation over a `Fragment`'s children in the
second phase of `render_callout_blockquote` (lines 529-567), threading the
`found_callout_marker` flag.  Returns the line and the updated flag. -/
def calloutLineContent : List Node → Bool → Str × Bool
  | [], f => ([], f)
  | c :: cs, f =>
      match c with
      | .text v =>
          if !f && (detectCallout v).isSome then
            let piece :=
              match v.findIdx? (· == ']') with
              | Option.some e =>
                  let remaining := trimStart (v.drop (e + 1))
                  if remaining.isEmpty then [] else remaining
              | Option.none => []
            let r := calloutLineContent cs true
            (piece ++ r.1, r.2)
          else
            let r := calloutLineContent cs f
            (v ++ r.1, r.2)
      | .link vs url =>
          let t := renderInlineContent vs
          let piece :=
            if (trimStr t).isEmpty then S " 🔗 " ++ makeClickableLink url url
            else S " 🔗 " ++ makeClickableLink url t
          let r := calloutLineContent cs f
          (piece ++ r.1, r.2)
      | _ =>
          let r := calloutLineContent cs f
          (renderInlineContent [c] ++ r.1, r.2)

mutual
/-- `render_node_inline` from `renderer.rs` (lines 160-419), arm by arm. -/
def renderNodeInline (ctx : RenderCtx) (node : Node) (depth : Nat)
    (inline : Bool) (w : Sink) : Except String Sink :=
  match node with
  | .heading depth1 values => do
      let w ← if !inline then wWrite w (S "\n") else pure w
      let symbol := HEADER_SYMBOLS.getD (depth1 - 1) (S "⑥")
      let text := renderInlineContent values
      let w ←
        match depth1 with
        | 1 => do
            let line : Str := List.replicate (text.length + 4) '═'
            let w ← wWrite w (sgr "94" line ++ S "\n")
            let w ← wWrite w (sgr "1;94" symbol ++ S " " ++ sgr "1;94" text ++ S "\n")
            wWrite w (sgr "94" line ++ S "\n")
        | 2 => do
            let w ← wWrite w (sgr "1;36" symbol ++ S " " ++ sgr "1;36" text ++ S "\n")
            let line : Str := List.replicate (text.length + 4) '─'
            wWrite w (sgr "36" line ++ S "\n")
        | 3 => wWrite w (sgr "1;33" symbol ++ S " " ++ sgr "1;33" text ++ S "\n")
        | 4 => wWrite w (sgr "1;32" symbol ++ S " " ++ sgr "1;32" text ++ S "\n")
        | 5 => wWrite w (sgr "1;35" symbol ++ S " " ++ sgr "1;35" text ++ S "\n")
        | _ => wWrite w (sgr "1;37" symbol ++ S " " ++ sgr "1;37" text ++ S "\n")
      wWrite w (S "\n")
  | .text v =>
      if !(trimStr v).isEmpty then
        if inline then wWrite w v else wWrite w (v ++ S "\n")
      else pure w
  | .list o i c vs => renderList ctx o i c vs depth w
  | .code v lang => do
      let w ← wWrite w (sgr "90" (S "```"))
      let w ← match lang with
        | Option.some l => wWrite w (sgr "90" l)
        | Option.none => pure w
      let w ← wWrite w (S "\n")
      let w ← wWrite w (ctx.hl v lang)
      let w ← wWrite w (S "\n")
      let w ← wWrite w (sgr "90" (S "```") ++ S "\n")
      wWrite w (S "\n")
  | .codeInline v => wWrite w (sgr "93" (S "`" ++ v ++ S "`"))
  | .strong vs => wWrite w (sgr "1" (renderInlineContent vs))
  | .emphasis vs => wWrite w (sgr "3" (renderInlineContent vs))
  | .link vs url =>
      let text := renderInlineContent vs
      if (trimStr text).isEmpty then
        wWrite w (S " " ++ sgr "94" (S "🔗") ++ S " " ++ makeClickableLink url url)
      else
        wWrite w (S " " ++ sgr "94" (S "🔗") ++ S " " ++
          sgr "4;94" (makeClickableLink url text))
  | .image alt url =>
      let _ := ctx.img url
      if (trimStr alt).isEmpty then
        wWrite w (sgr "92" (S "🖼️ ") ++ S " " ++ sgr "4;92" url ++ S "\n")
      else
        wWrite w (sgr "92" (S "🖼️ ") ++ S " " ++ sgr "92" alt ++ S " (" ++
          sgr "90" url ++ S ")" ++ S "\n")
  | .horizontalRule => do
      let w ← wWrite w (sgr "90" (List.replicate 80 '─') ++ S "\n")
      wWrite w (S "\n")
  | .blockquote vs => do
      let w ← if !inline then wWrite w (S "\n") else pure w
      let w ← if isCalloutBlockquote vs then renderCalloutBq ctx vs w
              else renderRegularBqGo ctx vs depth w
      wWrite w (S "\n")
  | .html v => wWrite w (ctx.hl v (Option.some (S "html")) ++ S "\n")
  | .lineBreak => if inline then wWrite w (S " ") else wWrite w (S "\n")
  | .fragment vs => do
      let w ← renderEach ctx vs depth true w
      if !inline then wWrite w (S "\n") else pure w
  | .tableHeader _ => pure w
  | .tableRow _ => pure w
  | .tableCell vs col row last lastT =>
      renderTableCell ctx vs col last
        (calculateColumnWidths [.tableCell vs col row last lastT]) w
  | .other => pure w
termination_by 2 * sizeOf node

/-- The `for child in ...` loops that render a node list through
`render_node_inline` at a fixed depth and inline mode. -/
def renderEach (ctx : RenderCtx) (nodes : List Node) (depth : Nat)
    (inline : Bool) (w : Sink) : Except String Sink :=
  match nodes with
  | [] => pure w
  | n :: ns => do
      let w ← renderNodeInline ctx n depth inline w
      renderEach ctx ns depth inline w
termination_by 2 * sizeOf nodes

/-- `render_list` from `renderer.rs` (lines 421-469), on the fields of the
`List` node. -/
def renderList (ctx : RenderCtx) (ordered : Bool) (index : Nat)
    (checked : Option Bool) (values : List Node) (depth : Nat) (w : Sink) :
    Except String Sink := do
  let w ← wWrite w (listIndent depth ++ sgr "95" (listBullet ordered index depth) ++
    S " " ++ checkboxStr checked)
  let w ← renderListGo ctx depth values false w
  wWrite w (S "\n")
termination_by 2 * sizeOf values + 1

/-- The child loop of `render_list` (lines 444-465), threading `has_content`. -/
def renderListGo (ctx : RenderCtx) (depth : Nat) (values : List Node)
    (hasContent : Bool) (w : Sink) : Except String Sink :=
  match values with
  | [] => pure w
  | .list o i c vs :: rest => do
      let w ← if hasContent then wWrite w (S "\n") else pure w
      let w ← renderList ctx o i c vs (depth + 1) w
      renderListGo ctx depth rest hasContent w
  | .fragment vs :: rest => do
      let w ← renderEach ctx vs (depth + 1) true w
      renderListGo ctx depth rest true w
  | v :: rest => do
      let w ← renderNodeInline ctx v (depth + 1) true w
      renderListGo ctx depth rest true w
termination_by 2 * sizeOf values

/-- `render_callout_blockquote` from `renderer.rs` (lines 471-583), on the
blockquote's children. -/
def renderCalloutBq (ctx : RenderCtx) (values : List Node) (w : Sink) :
    Except String Sink :=
  match findCalloutInfo values with
  | Option.none => pure w
  | Option.some (c, ctext) => do
      let w ← wWrite w (S "┌─ " ++
        sgr (calloutHeaderStyle c.color) (c.icon ++ S " " ++ c.name) ++ S "\n")
      let w ← if !ctext.isEmpty then wWrite w (S "│ " ++ ctext ++ S "\n") else pure w
      let w ← renderCalloutGo ctx values false w
      wWrite w (S "└─\n")
termination_by 2 * sizeOf values + 1

/-- The second-phase loop of `render_callout_blockquote` (lines 526-579),
threading `found_callout_marker`. -/
def renderCalloutGo (ctx : RenderCtx) (values : List Node) (found : Bool)
    (w : Sink) : Except String Sink :=
  match values with
  | [] => pure w
  | .fragment para :: rest =>
      let r := calloutLineContent para found
      do
        let w ← if !(trimStr r.1).isEmpty && r.2 then
            wWrite w (S "│ " ++ r.1 ++ S "\n")
          else pure w
        renderCalloutGo ctx rest r.2 w
  | v :: rest =>
      if found then do
        let w ← wWrite w (S "│ ")
        let w ← renderNodeInline ctx v 0 false w
        renderCalloutGo ctx rest found w
      else renderCalloutGo ctx rest found w
termination_by 2 * sizeOf values

/-- `render_regular_blockquote` from `renderer.rs` (lines 586-597). -/
def renderRegularBqGo (ctx : RenderCtx) (values : List Node) (depth : Nat)
    (w : Sink) : Except String Sink :=
  match values with
  | [] => pure w
  | v :: rest => do
      let w ← wWrite w (sgr "90" (S "▌") ++ S " ")
      let w ← renderNodeInline ctx v depth false w
      renderRegularBqGo ctx rest depth w
termination_by 2 * sizeOf values

/-- `render_table_cell` from `renderer.rs` (lines 861-887), on the fields it
reads. -/
def renderTableCell (ctx : RenderCtx) (values : List Node) (col : Nat)
    (lastCellInRow : Bool) (widths : List Nat) (w : Sink) :
    Except String Sink := do
  let w ← wWrite w (sgr "96" (S "│ "))
  let content := renderInlineContent values
  let width := widths.getD col 0
  let w ← renderEach ctx values 0 true w
  let w ← if content.length < width then
      wWrite w (List.replicate (width - content.length) ' ')
    else pure w
  let w ← wWrite w (S " ")
  if lastCellInRow then wWrite w (sgr "96" (S "│") ++ S "\n") else pure w
termination_by 2 * sizeOf values + 1
end

/-- The cell loop of `render_table_row` (lines 838-855), over the enumerated
children of the row. -/
def renderTableRowGo (ctx : RenderCtx) (widths : List Nat) :
    List (Nat × Node) → Sink → Except String Sink
  | [], w => pure w
  | (colIdx, .tableCell cvs _ _ _ _) :: rest, w => do
      let content := renderInlineContent cvs
      let width := widths.getD colIdx 0
      let w ← renderEach ctx cvs 0 true w
      let w ← if content.length < width then
          wWrite w (List.replicate (width - content.length) ' ')
        else pure w
      let w ← wWrite w (S " " ++ sgr "96" (S "│ "))
      renderTableRowGo ctx widths rest w
  | _ :: rest, w => renderTableRowGo ctx widths rest w

/-- `render_table_row` from `renderer.rs` (lines 831-858), on the row's
children. -/
def renderTableRow (ctx : RenderCtx) (values : List Node) (widths : List Nat)
    (w : Sink) : Except String Sink := do
  let w ← wWrite w (sgr "96" (S "│ "))
  let w ← renderTableRowGo ctx widths values.enum w
  wWrite w (S "\n")

/-- The per-column loop of `render_table_header` (lines 809-825). -/
def renderTableHeaderGo (widths : List Nat) (alignLen : Nat) :
    List (Nat × AlignKind) → Sink → Except String Sink
  | [], w => pure w
  | (i, a) :: rest, w => do
      let width := widths.getD i 4
      let lr : Str × Str :=
        match a with
        | .left => (S ":", S "─")
        | .right => (S "─", S ":")
        | .center => (S ":", S ":")
        | .none => (S "─", S "─")
      let w ← wWrite w (sgr "90" lr.1)
      let w ← wWrite w (sgr "90" (List.replicate width '─'))
      let w ← wWrite w (sgr "90" lr.2)
      let w ← if i < alignLen - 1 then wWrite w (sgr "90" (S "┼")) else pure w
      renderTableHeaderGo widths alignLen rest w

/-- `render_table_header` from `renderer.rs` (lines 803-828). -/
def renderTableHeaderSep (align : List AlignKind) (widths : List Nat)
    (w : Sink) : Except String Sink := do
  let w ← wWrite w (sgr "90" (S "├"))
  let w ← renderTableHeaderGo widths align.length align.enum w
  wWrite w (sgr "90" (S "┤") ++ S "\n")

/-- The column loop shared by `render_table_top_border` and
`render_table_bottom_border` (lines 773-779 and 791-797): note the `4`
fallback width. -/
def renderBorderGo (widths : List Nat) (colCount : Nat) (sep : Str) :
    List Nat → Sink → Except String Sink
  | [], w => pure w
  | i :: rest, w => do
      let width := widths.getD i 4
      let w ← wWrite w (sgr "90" (List.replicate (width + 2) '─'))
      let w ← if i < colCount - 1 then wWrite w (sgr "90" sep) else pure w
      renderBorderGo widths colCount sep rest w

/-- `render_table_top_border` from `renderer.rs` (lines 767-782). -/
def renderTableTopBorder (widths : List Nat) (colCount : Nat) (w : Sink) :
    Except String Sink := do
  let w ← wWrite w (sgr "90" (S "┌"))
  let w ← renderBorderGo widths colCount (S "┬") (List.range colCount) w
  wWrite w (sgr "90" (S "┐") ++ S "\n")

/-- `render_table_bottom_border` from `renderer.rs` (lines 785-800). -/
def renderTableBottomBorder (widths : List Nat) (colCount : Nat) (w : Sink) :
    Except String Sink := do
  let w ← wWrite w (sgr "90" (S "└"))
  let w ← renderBorderGo widths colCount (S "┴") (List.range colCount) w
  wWrite w (sgr "90" (S "┘") ++ S "\n")

/-- The streaming loop of `render_table` (lines 677-722), with the source's
`get(i + 1)` / `get(i + 2)` lookahead expressed on the tail of the run. -/
def renderTableGo (ctx : RenderCtx) (widths : List Nat) :
    List Node → Sink → Except String Sink
  | [], w => pure w
  | .tableCell vs col _ last _ :: rest, w => do
      let content := renderInlineContent vs
      let width := widths.getD col 0
      let w ← renderEach ctx vs 0 true w
      let w ← if content.length < width then
          wWrite w (List.replicate (width - content.length) ' ')
        else pure w
      let w ← wWrite w (S " " ++ sgr "96" (S "│ "))
      if last then do
        let w ← wWrite w (S "\n")
        match rest with
        | .tableHeader align :: rest2 => do
            let w ← renderTableHeaderSep align widths w
            let w ← match rest2 with
              | .tableCell _ _ _ _ _ :: _ => wWrite w (sgr "96" (S "│ "))
              | _ => pure w
            renderTableGo ctx widths rest w
        | .tableCell _ _ _ _ _ :: _ => do
            let w ← wWrite w (sgr "96" (S "│ "))
            renderTableGo ctx widths rest w
        | _ => renderTableGo ctx widths rest w
      else renderTableGo ctx widths rest w
  | .tableHeader _ :: rest, w => renderTableGo ctx widths rest w
  | .tableRow vs :: rest, w => do
      let w ← renderTableRow ctx vs widths w
      renderTableGo ctx widths rest w
  | _ :: rest, w => renderTableGo ctx widths rest w

/-- `render_table` from `renderer.rs` (lines 644-729). -/
def renderTable (ctx : RenderCtx) (run : List Node) (w : Sink) :
    Except String Sink :=
  if run.isEmpty then pure w
  else
    let widths := calculateColumnWidths run
    let colCount := (run.findSome? (fun n =>
      match n with
      | .tableHeader align => Option.some align.length
      | _ => Option.none)).getD widths.length
    do
      let w ← wWrite w (S "\n")
      let w ← renderTableTopBorder widths colCount w
      let w ← wWrite w (sgr "96" (S "│ "))
      let w ← renderTableGo ctx widths run w
      let w ← renderTableBottomBorder widths colCount w
      wWrite w (S "\n")

/-- `render_node` from `renderer.rs` (lines 151-158). -/
def renderNode (ctx : RenderCtx) (node : Node) (depth : Nat) (w : Sink) :
    Except String Sink :=
  renderNodeInline ctx node depth false w

/-- The predicate of the run-collecting `take_while` in `render_markdown`
(lines 102-107). -/
def isTableNode : Node → Bool
  | .tableCell _ _ _ _ _ | .tableHeader _ | .tableRow _ => true
  | _ => false

/-- The run trigger `matches!(node, Node::TableCell(_))` in `render_markdown`
(line 98). -/
def isTableCellNode : Node → Bool
  | .tableCell _ _ _ _ _ => true
  | _ => false

theorem isTableNode_of_cell {n : Node} (h : isTableCellNode n = true) :
    isTableNode n = true := by
  cases n <;> simp_all [isTableCellNode, isTableNode]

/-- The `while i < len` loop of `render_markdown` (lines 96-115): a node
sequence is consumed either one node at a time, or — when the next node is a
`TableCell` — by handing the maximal table-shaped run to `render_table` and
skipping past it. -/
def renderNodes (ctx : RenderCtx) : List Node → Sink → Except String Sink
  | [], w => pure w
  | n :: rest, w =>
      if h : isTableCellNode n = true then
        let run := (n :: rest).takeWhile isTableNode
        do
          let w ← renderTable ctx run w
          renderNodes ctx ((n :: rest).drop run.length) w
      else do
        let w ← renderNode ctx n 0 w
        renderNodes ctx rest w
termination_by l => l.length
decreasing_by
  · simp only [List.length_drop]
    have ht : isTableNode n = true := isTableNode_of_cell h
    simp only [List.takeWhile_cons, ht, if_true, List.length_cons]
    omega
  · simp [Nat.lt_succ_self]

/-- `render_markdown` from `renderer.rs` (lines 91-117); the highlighter the
source constructs locally is the `hl` collaborator carried in `ctx`. -/
def renderMarkdown (ctx : RenderCtx) (nodes : List Node) (w : Sink) :
    Except String Sink :=
  renderNodes ctx nodes w

/-! ## C9: the clickable-link escape sequence -/

theorem esc_tail_split : S "\x1b]8;;\x1b\\" = S "\x1b]8;;" ++ S "\x1b\\" := by
  decide

/-- C9: for every url `u` and display text `t`, the clickable-link sequence is
byte-exactly `ESC ] 8 ; ; u ESC \ t ESC ] 8 ; ; ESC \`, with the
ESC-backslash string terminator; no BEL byte ever appears beyond those already
inside `u` or `t`. -/
theorem makeClickableLink_spec :
    (∀ u t : Str, makeClickableLink u t =
      S "\x1b]8;;" ++ u ++ S "\x1b\\" ++ t ++ S "\x1b]8;;" ++ S "\x1b\\")
    ∧ (∀ u t : Str,
      (makeClickableLink u t).count '\x07' = u.count '\x07' + t.count '\x07') := by
  constructor
  · intro u t
    simp [makeClickableLink, esc_tail_split]
  · intro u t
    have h1 : (S "\x1b]8;;").count '\x07' = 0 := by decide
    have h2 : (S "\x1b\\").count '\x07' = 0 := by decide
    have h3 : (S "\x1b]8;;\x1b\\").count '\x07' = 0 := by decide
    simp [makeClickableLink, List.count_append, h1, h2, h3]

/-! ## C2: callout detection -/

/-- The five callout tags, in table order. -/
def calloutTags : List Str :=
  [S "NOTE", S "TIP", S "IMPORTANT", S "WARNING", S "CAUTION"]

/-- The substring strictly between the leading `[!` and the first `]`. -/
def betweenBrackets (t : Str) : Str :=
  match t.findIdx? (· == ']') with
  | Option.some e => (t.take e).drop 2
  | Option.none => []

/-- The spec's wording of a callout match: trimmed text starts with `[!`,
contains `]`, and the substring between `[!` and the first `]` equals one of
the five tags, ASCII-case-insensitively. -/
def calloutSpecMatch (text : Str) : Prop :=
  (S "[!").isPrefixOf (trimStr text) = true ∧ ']' ∈ trimStr text ∧
  ∃ tag ∈ calloutTags, eqIgnoreAsciiCase tag (betweenBrackets (trimStr text)) = true

theorem calloutTags_eq : CALLOUTS.map (·.1) = calloutTags := by decide

/-- C2: detection succeeds iff the trimmed text starts with `[!`, contains a
closing `]`, and the substring strictly between `[!` and the first `]` is one
of the five tags up to ASCII case; in particular `[NOTE]` (missing the `!`)
and an unknown bracketed tag are rejected. -/
theorem detectCallout_iff :
    (∀ text : Str, (detectCallout text).isSome = true ↔ calloutSpecMatch text)
    ∧ detectCallout (S "[NOTE] no exclamation") = Option.none
    ∧ detectCallout (S "[!FOO] unknown tag") = Option.none
    ∧ (detectCallout (S "[!note] mixed case")).isSome = true := by
  refine ⟨?_, by decide, by decide, by decide⟩
  intro text
  unfold detectCallout calloutSpecMatch betweenBrackets
  by_cases hp : (S "[!").isPrefixOf (trimStr text) = true
  · by_cases hc : (trimStr text).contains ']' = true
    · have hmem : ']' ∈ trimStr text := List.elem_iff.mp hc
      simp only [hp, hc, Bool.and_self, if_true, Bool.true_and]
      cases hf : (trimStr text).findIdx? (· == ']') with
      | none =>
          exfalso
          have := List.findIdx?_eq_none_iff.mp hf ']' hmem
          simp at this
      | some e =>
          simp only [Option.isSome_map', List.find?_isSome, hp, hmem, true_and]
          constructor
          · rintro ⟨⟨tag, c⟩, hin, hpred⟩
            refine ⟨tag, ?_, hpred⟩
            have : tag ∈ CALLOUTS.map (·.1) := List.mem_map.mpr ⟨(tag, c), hin, rfl⟩
            rwa [calloutTags_eq] at this
          · rintro ⟨tag, htag, hpred⟩
            rw [← calloutTags_eq] at htag
            obtain ⟨⟨tag1, c⟩, hin, rfl⟩ := List.mem_map.mp htag
            exact ⟨(tag1, c), hin, hpred⟩
    · have hc1 : (trimStr text).contains ']' = false := Bool.eq_false_iff.mpr hc
      simp only [hp, hc1, Bool.and_false, Bool.false_eq_true, if_false,
        Option.isSome_none, false_iff, not_and]
      intro _ hmem
      exact absurd (List.elem_iff.mpr hmem) (by simp [List.contains] at hc1 ⊢; simpa using hc1)
  · have hp1 : (S "[!").isPrefixOf (trimStr text) = false := Bool.eq_false_iff.mpr hp
    simp only [hp1, Bool.false_and, Bool.false_eq_true, if_false,
      Option.isSome_none, false_iff, not_and]
    intro h
    exact absurd h (by simp [hp1])

/-! ## C1: column widths -/

/-- Recursive characterization of `colUpdate` (resize with zeros, then
max-update at `col`). -/
def updW : List Nat → Nat → Nat → List Nat
  | [], 0, width => [max 0 width]
  | [], c + 1, width => 0 :: updW [] c width
  | x :: xs, 0, width => max x width :: xs
  | x :: xs, c + 1, width => x :: updW xs c width

theorem colUpdate_eq (ws : List Nat) (col width : Nat) :
    colUpdate ws col width = updW ws col width := by
  induction col generalizing ws with
  | zero =>
      cases ws with
      | nil => simp [colUpdate, updW]
      | cons x xs => simp [colUpdate, updW]
  | succ c ih =>
      cases ws with
      | nil =>
          have h0 : colUpdate [] (c + 1) width = 0 :: colUpdate [] c width := by
            simp only [colUpdate, List.nil_append, List.length_nil, Nat.zero_le, if_true,
              Nat.sub_zero, List.replicate_succ, List.set_cons_succ, List.getD_cons_succ]
          rw [h0, ih, updW]
      | cons x xs =>
          have h0 : colUpdate (x :: xs) (c + 1) width = x :: colUpdate xs c width := by
            simp only [colUpdate, List.length_cons, Nat.add_le_add_iff_right,
              List.cons_append, List.set_cons_succ, List.getD_cons_succ]
            by_cases hl : xs.length ≤ c
            · simp [hl]
            · simp [hl]
          rw [h0, ih, updW]

theorem updW_length (ws : List Nat) (col width : Nat) :
    (updW ws col width).length = max ws.length (col + 1) := by
  induction col generalizing ws with
  | zero => cases ws <;> simp [updW]
  | succ c ih =>
      cases ws with
      | nil => simp [updW, ih, Nat.max_eq_right]
      | cons x xs => simp [updW, ih]; omega

theorem updW_getD (ws : List Nat) (col width i : Nat) :
    (updW ws col width).getD i 0 =
      if i = col then max (ws.getD i 0) width else ws.getD i 0 := by
  induction col generalizing ws i with
  | zero =>
      cases ws with
      | nil => cases i <;> simp [updW]
      | cons x xs => cases i <;> simp [updW]
  | succ c ih =>
      cases ws with
      | nil =>
          cases i with
          | zero => simp [updW]
          | succ j => simpa [updW] using ih [] j
      | cons x xs =>
          cases i with
          | zero => simp [updW]
          | succ j => simpa [updW] using ih xs j

/-- The width-accumulating fold over spec entries. -/
def foldUpd (es : List (Nat × Nat)) (ws : List Nat) : List Nat :=
  es.foldl (fun a e => updW a e.1 e.2) ws

theorem listMax_cons (x : Nat) (l : List Nat) : listMax (x :: l) = max x (listMax l) := rfl

theorem foldUpd_length (es : List (Nat × Nat)) (ws : List Nat) :
    (foldUpd es ws).length = max ws.length (listMax (es.map (fun e => e.1 + 1))) := by
  induction es generalizing ws with
  | nil => simp [foldUpd, listMax]
  | cons e es ih =>
      simp only [foldUpd, List.foldl_cons, List.map_cons, listMax_cons]
      rw [show (List.foldl (fun a e => updW a e.1 e.2) (updW ws e.1 e.2) es) =
        foldUpd es (updW ws e.1 e.2) from rfl, ih, updW_length]
      omega

theorem foldUpd_getD (es : List (Nat × Nat)) (ws : List Nat) (i : Nat) :
    (foldUpd es ws).getD i 0 =
      max (ws.getD i 0) (listMax ((es.filter (fun e => e.1 == i)).map (·.2))) := by
  induction es generalizing ws with
  | nil => simp [foldUpd, listMax]
  | cons e es ih =>
      simp only [foldUpd, List.foldl_cons]
      rw [show (List.foldl (fun a e => updW a e.1 e.2) (updW ws e.1 e.2) es) =
        foldUpd es (updW ws e.1 e.2) from rfl, ih, updW_getD]
      by_cases hcol : e.1 = i
      · subst hcol
        simp [List.filter_cons, listMax_cons]
        omega
      · have hne : (e.1 == i) = false := by simpa using hcol
        simp [List.filter_cons, hne, if_neg (fun hh : i = e.1 => hcol hh.symm)]

theorem foldUpd_cons (e : Nat × Nat) (es : List (Nat × Nat)) (ws : List Nat) :
    foldUpd (e :: es) ws = foldUpd es (updW ws e.1 e.2) := rfl

theorem rowFold_eq (l : List (Nat × Node)) (ws : List Nat) :
    l.foldl (fun ws1 p =>
      match p.2 with
      | .tableCell cvs _ _ _ _ => colUpdate ws1 p.1 (cellWidth cvs)
      | _ => ws1) ws
    = foldUpd (l.filterMap (fun p =>
        match p.2 with
        | .tableCell cvs _ _ _ _ => some (p.1, cellWidth cvs)
        | _ => Option.none)) ws := by
  induction l generalizing ws with
  | nil => simp [foldUpd]
  | cons p rest ih =>
      obtain ⟨idx, n⟩ := p
      cases n
      case tableCell cvs col row lr lt =>
        simp only [List.foldl_cons, List.filterMap_cons]
        rw [ih, foldUpd_cons]
        exact congrArg _ (by rw [colUpdate_eq])
      all_goals simpa only [List.foldl_cons, List.filterMap_cons] using ih ws

theorem foldUpd_nil (ws : List Nat) : foldUpd [] ws = ws := rfl

theorem foldUpd_append (a b : List (Nat × Nat)) (ws : List Nat) :
    foldUpd (a ++ b) ws = foldUpd b (foldUpd a ws) := by
  simp [foldUpd, List.foldl_append]

theorem cellEntries_cons (n : Node) (rest : List Node) :
    cellEntries (n :: rest) =
      (match n with
      | .tableRow vs =>
          vs.enum.filterMap (fun p =>
            match p.2 with
            | .tableCell cvs _ _ _ _ => some (p.1, cellWidth cvs)
            | _ => Option.none)
      | .tableCell cvs col _ _ _ => [(col, cellWidth cvs)]
      | _ => []) ++ cellEntries rest := by
  simp [cellEntries]

theorem calcFold_eq (nodes : List Node) (ws : List Nat) :
    nodes.foldl (fun ws n =>
      match n with
      | .tableRow vs =>
          vs.enum.foldl (fun ws1 p =>
            match p.2 with
            | .tableCell cvs _ _ _ _ => colUpdate ws1 p.1 (cellWidth cvs)
            | _ => ws1) ws
      | .tableCell cvs col _ _ _ => colUpdate ws col (cellWidth cvs)
      | _ => ws) ws
    = foldUpd (cellEntries nodes) ws := by
  induction nodes generalizing ws with
  | nil => simp [cellEntries, foldUpd]
  | cons n rest ih =>
      cases n
      case tableRow vs =>
        simp only [List.foldl_cons, cellEntries_cons, foldUpd_append]
        rw [rowFold_eq, ih]
      case tableCell cvs col row l lt =>
        simp only [List.foldl_cons, cellEntries_cons, foldUpd_append]
        rw [ih]
        exact congrArg (foldUpd (cellEntries rest)) (by rw [colUpdate_eq]; rfl)
      all_goals
        simpa only [List.foldl_cons, cellEntries_cons, List.nil_append, foldUpd_nil]
          using ih ws

theorem calculateColumnWidths_eq (nodes : List Node) :
    calculateColumnWidths nodes = foldUpd (cellEntries nodes) [] := by
  unfold calculateColumnWidths
  exact calcFold_eq nodes []

theorem listMax_map_succ (l : List Nat) (h : l ≠ []) :
    listMax (l.map (· + 1)) = listMax l + 1 := by
  induction l with
  | nil => cases h rfl
  | cons x xs ih =>
      cases xs with
      | nil => simp [listMax, listMax_cons]
      | cons y ys =>
          simp only [List.map_cons, listMax_cons] at *
          rw [ih (by simp)]
          omega

/-- C1: for every table run, the width vector is the per-column maximum of the
flattened codepoint widths of all cells in that column (row-wrapped cells by
position, standalone cells by their `column` field), and its length is one
plus the largest column index encountered. -/
theorem columnWidths_spec (nodes : List Node) :
    (∀ i : Nat, (calculateColumnWidths nodes).getD i 0 =
        listMax (((cellEntries nodes).filter (fun e => e.1 == i)).map (·.2)))
    ∧ (calculateColumnWidths nodes).length =
        listMax ((cellEntries nodes).map (fun e => e.1 + 1))
    ∧ (cellEntries nodes ≠ [] →
        (calculateColumnWidths nodes).length =
          1 + listMax ((cellEntries nodes).map (·.1))) := by
  have hlen : (calculateColumnWidths nodes).length =
      listMax ((cellEntries nodes).map (fun e => e.1 + 1)) := by
    rw [calculateColumnWidths_eq, foldUpd_length]
    simp
  refine ⟨?_, hlen, ?_⟩
  · intro i
    rw [calculateColumnWidths_eq, foldUpd_getD]
    simp
  · intro hne
    rw [hlen]
    have hmm : (cellEntries nodes).map (fun e => e.1 + 1) =
        ((cellEntries nodes).map (·.1)).map (· + 1) := by
      rw [List.map_map]
      rfl
    rw [hmm, listMax_map_succ _ (by simpa using hne)]
    omega

/-- Witness for `columnWidths_spec`: a one-cell run at column 2 yields a width
vector of length 3. -/
theorem columnWidths_spec_witness :
    cellEntries [Node.tableCell [] 2 0 false false] ≠ [] ∧
    (calculateColumnWidths [Node.tableCell [] 2 0 false false]).length =
      1 + listMax ((cellEntries [Node.tableCell [] 2 0 false false]).map (·.1)) := by
  have hne : cellEntries [Node.tableCell [] 2 0 false false] ≠ [] := by
    simp [cellEntries]
  exact ⟨hne, (columnWidths_spec _).2.2 hne⟩

/-! ## C5: inline flattening and inter-token spacing -/

theorem riGo_append (xs ys : List Node) (first : Bool) (acc : Str) :
    riGo first acc (xs ++ ys) = riGo (xs.isEmpty && first) (riGo first acc xs) ys := by
  induction xs generalizing first acc with
  | nil => simp [riGo]
  | cons n ns ih =>
      simp only [List.cons_append, riGo, List.isEmpty_cons, Bool.false_and]
      rw [ih]
      simp

theorem endsWithSpace_concat (l : Str) : endsWithSpace (l ++ [' ']) = true := by
  simp [endsWithSpace]

/-- C5: flattening concatenates contributions in order; no space is inserted
before the first token, and before the contribution of a Link, Strong,
Emphasis or CodeInline node at a later position the accumulated string is
space-padded exactly when it does not already end in a space — so the
accumulator always ends in a space right before such a contribution. -/
theorem renderInlineContent_spacing :
    (∀ (n : Node) (ns : List Node),
      renderInlineContent (n :: ns) = riGo false (contrib n) ns)
    ∧ (∀ (p : List Node) (n : Node) (s : List Node), p ≠ [] →
        needsSpaceBefore n = true →
        (renderInlineContent (p ++ n :: s) =
          riGo false
            ((if endsWithSpace (renderInlineContent p) then renderInlineContent p
              else renderInlineContent p ++ [' ']) ++ contrib n) s
        ∧ endsWithSpace
            (if endsWithSpace (renderInlineContent p) then renderInlineContent p
             else renderInlineContent p ++ [' ']) = true)) := by
  constructor
  · intro n ns
    simp [renderInlineContent, riGo]
  · intro p n s hp hn
    have hpe : p.isEmpty = false := by
      cases p with
      | nil => exact absurd rfl hp
      | cons a l => rfl
    constructor
    · rw [renderInlineContent, riGo_append, hpe]
      simp only [Bool.false_and]
      rw [riGo]
      simp only [hn, Bool.not_false, Bool.true_and, Bool.and_true]
      by_cases hend : endsWithSpace (riGo true [] p) = true
      · simp [hend, renderInlineContent]
      · have hend1 : endsWithSpace (riGo true [] p) = false := Bool.eq_false_iff.mpr hend
        simp [hend1, renderInlineContent]
    · by_cases hend : endsWithSpace (renderInlineContent p) = true
      · simp [hend]
      · have hend1 : endsWithSpace (renderInlineContent p) = false := Bool.eq_false_iff.mpr hend
        simp [hend1, endsWithSpace_concat]

/-- Witness for `renderInlineContent_spacing` at `p = [Text "a"]`,
`n = CodeInline "x"`. -/
theorem renderInlineContent_spacing_witness :
    renderInlineContent ([Node.text (S "a")] ++ Node.codeInline (S "x") :: []) =
      riGo false
        ((if endsWithSpace (renderInlineContent [Node.text (S "a")]) then
            renderInlineContent [Node.text (S "a")]
          else renderInlineContent [Node.text (S "a")] ++ [' ']) ++
          contrib (Node.codeInline (S "x"))) [] :=
  (renderInlineContent_spacing.2 [Node.text (S "a")] (Node.codeInline (S "x")) []
    (by simp) (by decide)).1

/-! ## C6: highlighter contract -/

theorem drop_split (l : List Char) (a b : Nat) (h1 : a ≤ b) (h2 : b ≤ l.length) :
    l.drop a = (l.take b).drop a ++ l.drop b := by
  conv_lhs => rw [← List.take_append_drop b l]
  rw [List.drop_append_eq_append_drop]
  have hx : (l.take b).length = b := by
    rw [List.length_take]; omega
  rw [hx, Nat.sub_eq_zero_of_le h1, List.drop_zero]

theorem dropTake_split (l : List Char) (a b c : Nat) (h1 : a ≤ b) (h2 : b ≤ c)
    (h3 : c ≤ l.length) :
    (l.take c).drop a = (l.take b).drop a ++ (l.take c).drop b := by
  conv_lhs => rw [← List.take_append_drop b (l.take c)]
  rw [List.take_take, min_eq_left h2]
  rw [List.drop_append_eq_append_drop]
  have hx : (l.take b).length = b := by
    rw [List.length_take]; omega
  rw [hx, Nat.sub_eq_zero_of_le h1, List.drop_zero]

/-- Under a well-formed event stream, the loop of `highlight` keeps every
still-unconsumed source character, in order, as a sublist of its output. -/
theorem highlightLoop_sublist (code : Str) (evs : List HEvent) (cur : Nat)
    (h : okSpans code cur evs = true) :
    List.Sublist (code.drop cur) (highlightLoop code cur evs) := by
  induction evs generalizing cur with
  | nil => simp [highlightLoop]
  | cons ev rest ih =>
      cases ev with
      | source s e =>
          simp only [okSpans, Bool.and_eq_true, decide_eq_true_eq] at h
          obtain ⟨⟨⟨h1, h2⟩, h3⟩, h4⟩ := h
          simp only [highlightLoop]
          rw [drop_split code cur e (le_trans h1 h2) h3,
            dropTake_split code cur s e h1 h2 h3]
          simp only [List.append_assoc]
          exact (List.append_sublist_append_left _).mpr
            ((List.append_sublist_append_left _).mpr (ih e h4))
      | hstart i =>
          simp only [okSpans] at h
          exact (ih cur h).trans (List.sublist_append_right _ _)
      | hend =>
          simp only [okSpans] at h
          exact (ih cur h).trans (List.sublist_append_right _ _)
      | err =>
          simp only [okSpans] at h
          exact (ih cur h).trans (by simp [highlightLoop])

/-- C6: `highlight` returns the code unchanged when the language is absent,
unrecognized, when config construction fails, or when the highlight call
errors; it maps empty code to empty output; and whenever it does highlight, it
preserves all original characters in order. -/
theorem highlight_spec :
    (∀ code cfg ext, shHighlight code Option.none cfg ext = code)
    ∧ (∀ code l cfg ext, recognizedLangs.contains (toLowercaseModel l) = false →
        shHighlight code (Option.some l) cfg ext = code)
    ∧ (∀ code l ext, shHighlight code (Option.some l) false ext = code)
    ∧ (∀ code l cfg, shHighlight code (Option.some l) cfg Option.none = code)
    ∧ (∀ l cfg, shHighlight [] (Option.some l) cfg (Option.some []) = [])
    ∧ (∀ code lang cfg ext,
        (∀ evs, ext = Option.some evs → okSpans code 0 evs = true) →
        List.Sublist code (shHighlight code lang cfg ext)) := by
  refine ⟨fun code cfg ext => rfl, ?_, ?_, ?_, ?_, ?_⟩
  · intro code l cfg ext h
    simp only [shHighlight, h, Bool.false_and, Bool.false_eq_true, if_false]
  · intro code l ext
    simp [shHighlight]
  · intro code l cfg
    by_cases hr : (recognizedLangs.contains (toLowercaseModel l) && cfg) = true
    · simp [shHighlight, hr]
    · simp [shHighlight, Bool.eq_false_iff.mpr hr]
  · intro l cfg
    by_cases hr : (recognizedLangs.contains (toLowercaseModel l) && cfg) = true
    · simp [shHighlight, hr, highlightLoop]
    · simp [shHighlight, Bool.eq_false_iff.mpr hr, highlightLoop]
  · intro code lang cfg ext h
    cases lang with
    | none => exact List.Sublist.refl _
    | some l =>
        unfold shHighlight
        by_cases hr : (recognizedLangs.contains (toLowercaseModel l) && cfg) = true
        · simp only [hr, if_true]
          cases ext with
          | none => exact List.Sublist.refl _
          | some evs =>
              have := highlightLoop_sublist code evs 0 (h evs rfl)
              simpa using this
        · have hr1 : (recognizedLangs.contains (toLowercaseModel l) && cfg) = false :=
            Bool.eq_false_iff.mpr hr
          simp only [hr1, Bool.false_eq_true, if_false]
          exact List.Sublist.refl _

/-- Witness for `highlight_spec`: an unrecognized tag passes code through, and
a concrete highlighted render of `"ab"` keeps both characters in order. -/
theorem highlight_spec_witness :
    shHighlight (S "code") (Option.some (S "brainfuck")) true (Option.some []) = S "code"
    ∧ List.Sublist (S "ab") (shHighlight (S "ab") (Option.some (S "rust")) true
        (Option.some [HEvent.hstart 4, HEvent.source 0 1, HEvent.hend, HEvent.source 1 2])) := by
  constructor
  · exact highlight_spec.2.1 _ _ _ _ (by decide)
  · exact highlight_spec.2.2.2.2.2 _ _ _ _ (fun evs h => by cases h; decide)

/-! ## C8: list bullets and checkbox prefixes -/

/-- A sink whose writes always succeed, starting empty. -/
def allOk : Sink := ⟨fun _ => Option.none, [], 0⟩

/-- A concrete context: pass-through highlighter, image display reports
nothing. -/
def ctx0 : RenderCtx := ⟨fun code _ => code, fun _ => Option.none⟩

/-- C8 counterexample: the checked-state prefix the source emits is
`"☑️ "` (U+2611 followed by U+FE0F and a space), not the two-codepoint
`"☑ "` the claim states. -/
theorem checkbox_checked_counterexample :
    checkboxStr (Option.some true) ≠ S "☑ " := by decide

/-- C8 (amended): ordered bullets are `"<index+1>."`, unordered bullets are
the `depth % 4` entry of the 4-glyph palette, and the checkbox prefix is
`"☑️ "` (with the variation selector), `"☐ "`, or empty; `render_list`
writes indent, magenta bullet, a space, and that prefix as its first chunk. -/
theorem renderList_glyphs :
    (∀ index depth : Nat, listBullet true index depth = S (Nat.repr (index + 1)) ++ S ".")
    ∧ (∀ index depth : Nat,
        listBullet false index depth = LIST_BULLETS.getD (depth % 4) (S "●"))
    ∧ checkboxStr (Option.some true) = S "☑️ "
    ∧ checkboxStr (Option.some false) = S "☐ "
    ∧ checkboxStr Option.none = []
    ∧ (∀ (o : Bool) (i : Nat) (c : Option Bool) (d : Nat),
        renderList ctx0 o i c [] d allOk =
          .ok ⟨fun _ => Option.none,
            [listIndent d ++ sgr "95" (listBullet o i d) ++ S " " ++ checkboxStr c,
             S "\n"], 2⟩) := by
  refine ⟨fun i d => rfl, fun i d => rfl, by decide, by decide, rfl, ?_⟩
  intro o i c d
  simp [renderList, renderListGo, wWrite, allOk, Bind.bind, Except.bind, Pure.pure,
    Except.pure]

/-! ## C3: standalone table nodes -/

/-- Output chunks of a render result (empty on error). -/
def writtenOf : Except String Sink → List Str
  | .ok w => w.written
  | .error _ => []

/-- C3 counterexample: a standalone `TableRow` (a 1-node run) produces no
output at all — it is skipped, not rendered through any single-cell table
path — while the very same cell rendered through the dispatcher's standalone
`TableCell` arm does emit output. -/
theorem standalone_tableRow_counterexample :
    writtenOf (renderMarkdown ctx0
        [Node.tableRow [Node.tableCell [Node.text (S "A")] 0 0 true false]] allOk) = []
    ∧ writtenOf (renderNodeInline ctx0
        (Node.tableCell [Node.text (S "A")] 0 0 true false) 0 false allOk) ≠ [] := by
  constructor
  · simp [renderMarkdown, renderNodes, renderNode, renderNodeInline, isTableCellNode,
      writtenOf, allOk, Bind.bind, Except.bind, Pure.pure, Except.pure]
  · have hA : renderInlineContent [Node.text (S "A")] = S "A" := by
      simp [renderInlineContent, riGo, contrib]
    have hcw : cellWidth [Node.text (S "A")] = 1 := by
      simp only [cellWidth, hA]; decide
    have hw : calculateColumnWidths [Node.tableCell [Node.text (S "A")] 0 0 true false]
        = [1] := by
      simp only [calculateColumnWidths, List.foldl_cons, List.foldl_nil, hcw]; decide
    have ht : trimStr (S "A") ≠ [] := by decide
    have hlen : (S "A").length = 1 := by decide
    simp [renderNodeInline, renderTableCell, renderEach, writtenOf, allOk, wWrite,
      Bind.bind, Except.bind, Pure.pure, Except.pure, hA, hcw, hw, ht, hlen]

/-- C3 (amended): only a standalone `TableCell` reaching the node dispatcher
is rendered via the degenerate single-cell table path; standalone
`TableHeader` and `TableRow` nodes are skipped, writing nothing. -/
theorem standalone_table_nodes_amended :
    (∀ (ctx : RenderCtx) (al : List AlignKind) (d : Nat) (inl : Bool) (w : Sink),
      renderNodeInline ctx (Node.tableHeader al) d inl w = .ok w)
    ∧ (∀ (ctx : RenderCtx) (vs : List Node) (d : Nat) (inl : Bool) (w : Sink),
      renderNodeInline ctx (Node.tableRow vs) d inl w = .ok w)
    ∧ (∀ (ctx : RenderCtx) (vs : List Node) (col row : Nat) (last lastT : Bool)
        (d : Nat) (inl : Bool) (w : Sink),
      renderNodeInline ctx (Node.tableCell vs col row last lastT) d inl w =
        renderTableCell ctx vs col last
          (calculateColumnWidths [Node.tableCell vs col row last lastT]) w) := by
  refine ⟨?_, ?_, ?_⟩ <;> intros <;>
    simp [renderNodeInline, Pure.pure, Except.pure]

/-! ## C4: callout first body line -/

/-- C4 counterexample: with the marker text inside a `Fragment` (the shape the
parser produces), the content after the bracket is emitted twice — once from
the extracted `callout_text` and once more by the re-scan, which strips only
the marker and then emits the very same remaining content as a line. -/
theorem callout_first_line_counterexample :
    ¬ ((writtenOf (renderMarkdown ctx0
        [Node.blockquote [Node.fragment [Node.text (S "[!NOTE] hello")]]] allOk)).count
        (S "│ hello\n") = 1) := by
  have hc : isCalloutBlockquote [Node.fragment [Node.text (S "[!NOTE] hello")]] = true := by
    decide
  have hf : findCalloutInfo [Node.fragment [Node.text (S "[!NOTE] hello")]] =
      Option.some (⟨S "ℹ️", CColor.blue, S "Note"⟩, S "hello") := by decide
  have hl : calloutLineContent [Node.text (S "[!NOTE] hello")] false = (S "hello", true) := by
    decide
  have h1 : (S "hello").isEmpty = false := by decide
  have h2 : (trimStr (S "hello")).isEmpty = false := by decide
  simp [renderMarkdown, renderNodes, renderNode, renderNodeInline, renderCalloutBq,
    renderCalloutGo, isTableCellNode, hc, hf, hl, h1, h2, writtenOf, allOk, wWrite,
    Bind.bind, Except.bind, Pure.pure, Except.pure]
  decide

/-- C4 (amended): the first body line is emitted twice when the matching text
node sits inside a `Fragment` (marker stripped, remaining content re-emitted
by the re-scan); it is emitted exactly once only when the matching `Text` is a
direct child of the blockquote, which the re-scan ignores. -/
theorem callout_first_line_amended :
    (writtenOf (renderMarkdown ctx0
        [Node.blockquote [Node.fragment [Node.text (S "[!NOTE] hello")]]] allOk)).count
      (S "│ hello\n") = 2
    ∧ (writtenOf (renderMarkdown ctx0
        [Node.blockquote [Node.text (S "[!NOTE] hello")]] allOk)).count
      (S "│ hello\n") = 1 := by
  have hc : isCalloutBlockquote [Node.fragment [Node.text (S "[!NOTE] hello")]] = true := by
    decide
  have hc2 : isCalloutBlockquote [Node.text (S "[!NOTE] hello")] = true := by decide
  have hf : findCalloutInfo [Node.fragment [Node.text (S "[!NOTE] hello")]] =
      Option.some (⟨S "ℹ️", CColor.blue, S "Note"⟩, S "hello") := by decide
  have hf2 : findCalloutInfo [Node.text (S "[!NOTE] hello")] =
      Option.some (⟨S "ℹ️", CColor.blue, S "Note"⟩, S "hello") := by decide
  have hl : calloutLineContent [Node.text (S "[!NOTE] hello")] false = (S "hello", true) := by
    decide
  have h1 : (S "hello").isEmpty = false := by decide
  have h2 : (trimStr (S "hello")).isEmpty = false := by decide
  constructor <;>
    (simp [renderMarkdown, renderNodes, renderNode, renderNodeInline, renderCalloutBq,
      renderCalloutGo, isTableCellNode, hc, hc2, hf, hf2, hl, h1, h2, writtenOf, allOk,
      wWrite, Bind.bind, Except.bind, Pure.pure, Except.pure]
     decide)

/-! ## C10: the top-level loop advances -/

/-- C10: when the next node is a `TableCell`, the collected run contains at
least that node, so the loop's index strictly advances; the loop step is
exactly: render the run as a table, then continue after it. -/
theorem renderNodes_advances (n : Node) (rest : List Node)
    (h : isTableCellNode n = true) :
    1 ≤ ((n :: rest).takeWhile isTableNode).length
    ∧ ((n :: rest).drop ((n :: rest).takeWhile isTableNode).length).length <
        (n :: rest).length
    ∧ ∀ (ctx : RenderCtx) (w : Sink),
        renderNodes ctx (n :: rest) w =
          (renderTable ctx ((n :: rest).takeWhile isTableNode) w) >>= (fun w1 =>
            renderNodes ctx ((n :: rest).drop
              ((n :: rest).takeWhile isTableNode).length) w1) := by
  have ht : isTableNode n = true := isTableNode_of_cell h
  have hlen : 1 ≤ ((n :: rest).takeWhile isTableNode).length := by
    simp [List.takeWhile_cons, ht]
  refine ⟨hlen, ?_, ?_⟩
  · simp only [List.length_drop, List.length_cons]
    omega
  · intro ctx w
    simp [renderNodes, h]

/-- Witness for `renderNodes_advances` at a one-cell document. -/
theorem renderNodes_advances_witness :
    1 ≤ (([Node.tableCell [] 0 0 true false]).takeWhile isTableNode).length
    ∧ (([Node.tableCell [] 0 0 true false]).drop
        (([Node.tableCell [] 0 0 true false]).takeWhile isTableNode).length).length <
        ([Node.tableCell [] 0 0 true false]).length :=
  ⟨(renderNodes_advances (Node.tableCell [] 0 0 true false) [] (by decide)).1,
   (renderNodes_advances (Node.tableCell [] 0 0 true false) [] (by decide)).2.1⟩

/-! ## C7: the sink-error model

`GoodRes w r` says a render step starting from sink state `w` either succeeds
— preserving the schedule, consuming consecutively succeeding write slots, and
only appending output — or fails with exactly the error of the first scheduled
write failure at or after the current position. -/

def GoodRes (w : Sink) : Except String Sink → Prop
  | .ok w1 => w1.sched = w.sched ∧ w.count ≤ w1.count ∧
      (∀ j, w.count ≤ j → j < w1.count → w.sched j = Option.none) ∧
      ∃ app, w1.written = w.written ++ app
  | .error e => ∃ k, w.count ≤ k ∧ w.sched k = Option.some e ∧
      ∀ j, w.count ≤ j → j < k → w.sched j = Option.none

theorem goodRes_pure (w : Sink) : GoodRes w (pure w) :=
  ⟨rfl, le_refl _, fun j h1 h2 => absurd h2 (by omega), [], by simp⟩

theorem goodRes_ok (w : Sink) : GoodRes w (.ok w) :=
  ⟨rfl, le_refl _, fun j h1 h2 => absurd h2 (by omega), [], by simp⟩

theorem goodRes_write (w : Sink) (s : Str) : GoodRes w (wWrite w s) := by
  unfold wWrite
  cases hs : w.sched w.count with
  | some e =>
      exact ⟨w.count, le_refl _, hs, fun j h1 h2 => absurd h2 (by omega)⟩
  | none =>
      refine ⟨rfl, by simp, ?_, [s], rfl⟩
      intro j h1 h2
      have h2b : j < w.count + 1 := h2
      have hj : j = w.count := by omega
      rw [hj]
      exact hs

theorem goodRes_bind {w : Sink} {r : Except String Sink}
    {f : Sink → Except String Sink}
    (h1 : GoodRes w r) (h2 : ∀ w1, GoodRes w1 (f w1)) : GoodRes w (r >>= f) := by
  cases r with
  | error e => exact h1
  | ok w1 =>
      have hb : ((Except.ok w1 : Except String Sink) >>= f) = f w1 := rfl
      rw [hb]
      obtain ⟨hs, hc, hint, app, happ⟩ := h1
      have h3 := h2 w1
      cases hf : f w1 with
      | ok w2 =>
          rw [hf] at h3
          obtain ⟨hs2, hc2, hint2, app2, happ2⟩ := h3
          refine ⟨hs2.trans hs, hc.trans hc2, ?_, app ++ app2, ?_⟩
          · intro j hj1 hj2
            by_cases hj3 : j < w1.count
            · exact hint j hj1 hj3
            · have := hint2 j (by omega) hj2
              rwa [hs] at this
          · rw [happ2, happ, List.append_assoc]
      | error e =>
          rw [hf] at h3
          obtain ⟨k, hk1, hk2, hk3⟩ := h3
          refine ⟨k, hc.trans hk1, by rwa [hs] at hk2, ?_⟩
          intro j hj1 hj2
          by_cases hj3 : j < w1.count
          · exact hint j hj1 hj3
          · have := hk3 j (by omega) hj2
            rwa [hs] at this

set_option maxHeartbeats 3200000

mutual
theorem goodRes_rNI (ctx : RenderCtx) (node : Node) (depth : Nat) (inline : Bool)
    (w : Sink) : GoodRes w (renderNodeInline ctx node depth inline w) := by
  cases node <;>
    (simp only [renderNodeInline]
     repeat' first
       | apply goodRes_bind
       | apply goodRes_write
       | apply goodRes_pure
       | apply goodRes_rEach
       | apply goodRes_rList
       | apply goodRes_rCalloutBq
       | apply goodRes_rRegular
       | apply goodRes_rTableCell
       | split
       | intro w1)
termination_by 2 * sizeOf node

theorem goodRes_rEach (ctx : RenderCtx) (nodes : List Node) (depth : Nat)
    (inline : Bool) (w : Sink) : GoodRes w (renderEach ctx nodes depth inline w) := by
  cases nodes <;>
    (simp only [renderEach]
     repeat' first
       | apply goodRes_bind
       | apply goodRes_pure
       | apply goodRes_rNI
       | apply goodRes_rEach)
termination_by 2 * sizeOf nodes

theorem goodRes_rList (ctx : RenderCtx) (ordered : Bool) (index : Nat)
    (checked : Option Bool) (values : List Node) (depth : Nat) (w : Sink) :
    GoodRes w (renderList ctx ordered index checked values depth w) := by
  simp only [renderList]
  repeat' first
    | apply goodRes_bind
    | apply goodRes_write
    | apply goodRes_pure
    | apply goodRes_rListGo
    | intro w1
termination_by 2 * sizeOf values + 1

theorem goodRes_rListGo (ctx : RenderCtx) (depth : Nat) (values : List Node)
    (hasContent : Bool) (w : Sink) :
    GoodRes w (renderListGo ctx depth values hasContent w) := by
  cases values with
  | nil => simp only [renderListGo]; apply goodRes_pure
  | cons v rest =>
      cases v <;>
        (simp only [renderListGo]
         repeat' first
           | apply goodRes_bind
           | apply goodRes_write
           | apply goodRes_pure
           | apply goodRes_rList
           | apply goodRes_rListGo
           | apply goodRes_rEach
           | apply goodRes_rNI
           | split
           | intro w1)
termination_by 2 * sizeOf values

theorem goodRes_rCalloutBq (ctx : RenderCtx) (values : List Node) (w : Sink) :
    GoodRes w (renderCalloutBq ctx values w) := by
  simp only [renderCalloutBq]
  repeat' first
    | apply goodRes_bind
    | apply goodRes_write
    | apply goodRes_pure
    | apply goodRes_rCalloutGo
    | split
    | intro w1
termination_by 2 * sizeOf values + 1

theorem goodRes_rCalloutGo (ctx : RenderCtx) (values : List Node) (found : Bool)
    (w : Sink) : GoodRes w (renderCalloutGo ctx values found w) := by
  cases values with
  | nil => simp only [renderCalloutGo]; apply goodRes_pure
  | cons v rest =>
      cases v <;>
        (simp only [renderCalloutGo]
         repeat' first
           | apply goodRes_bind
           | apply goodRes_write
           | apply goodRes_pure
           | apply goodRes_rCalloutGo
           | apply goodRes_rNI
           | split
           | intro w1)
termination_by 2 * sizeOf values

theorem goodRes_rRegular (ctx : RenderCtx) (values : List Node) (depth : Nat)
    (w : Sink) : GoodRes w (renderRegularBqGo ctx values depth w) := by
  cases values <;>
    (simp only [renderRegularBqGo]
     repeat' first
       | apply goodRes_bind
       | apply goodRes_write
       | apply goodRes_pure
       | apply goodRes_rRegular
       | apply goodRes_rNI
       | intro w1)
termination_by 2 * sizeOf values

theorem goodRes_rTableCell (ctx : RenderCtx) (values : List Node) (col : Nat)
    (lastCellInRow : Bool) (widths : List Nat) (w : Sink) :
    GoodRes w (renderTableCell ctx values col lastCellInRow widths w) := by
  simp only [renderTableCell]
  repeat' first
    | apply goodRes_bind
    | apply goodRes_write
    | apply goodRes_pure
    | apply goodRes_rEach
    | split
    | intro w1
termination_by 2 * sizeOf values + 1
end

theorem goodRes_rTableRowGo (ctx : RenderCtx) (widths : List Nat)
    (l : List (Nat × Node)) (w : Sink) :
    GoodRes w (renderTableRowGo ctx widths l w) := by
  induction l generalizing w with
  | nil => simp only [renderTableRowGo]; apply goodRes_pure
  | cons p rest ih =>
      obtain ⟨i, n⟩ := p
      cases n <;>
        (simp only [renderTableRowGo]
         repeat' first
           | apply goodRes_bind
           | apply goodRes_write
           | apply goodRes_pure
           | apply ih
           | apply goodRes_rEach
           | split
           | intro w1)

theorem goodRes_rTableRow (ctx : RenderCtx) (values : List Node)
    (widths : List Nat) (w : Sink) :
    GoodRes w (renderTableRow ctx values widths w) := by
  simp only [renderTableRow]
  repeat' first
    | apply goodRes_bind
    | apply goodRes_write
    | apply goodRes_pure
    | apply goodRes_rTableRowGo
    | intro w1

theorem goodRes_rTableHeaderGo (widths : List Nat) (alignLen : Nat)
    (l : List (Nat × AlignKind)) (w : Sink) :
    GoodRes w (renderTableHeaderGo widths alignLen l w) := by
  induction l generalizing w with
  | nil => simp only [renderTableHeaderGo]; apply goodRes_pure
  | cons p rest ih =>
      obtain ⟨i, a⟩ := p
      simp only [renderTableHeaderGo]
      repeat' first
        | apply goodRes_bind
        | apply goodRes_write
        | apply goodRes_pure
        | apply ih
        | split
        | intro w1

theorem goodRes_rTableHeaderSep (align : List AlignKind) (widths : List Nat)
    (w : Sink) : GoodRes w (renderTableHeaderSep align widths w) := by
  simp only [renderTableHeaderSep]
  repeat' first
    | apply goodRes_bind
    | apply goodRes_write
    | apply goodRes_pure
    | apply goodRes_rTableHeaderGo
    | intro w1

theorem goodRes_rBorderGo (widths : List Nat) (colCount : Nat) (sep : Str)
    (l : List Nat) (w : Sink) :
    GoodRes w (renderBorderGo widths colCount sep l w) := by
  induction l generalizing w with
  | nil => simp only [renderBorderGo]; apply goodRes_pure
  | cons i rest ih =>
      simp only [renderBorderGo]
      repeat' first
        | apply goodRes_bind
        | apply goodRes_write
        | apply goodRes_pure
        | apply ih
        | split
        | intro w1

theorem goodRes_rTopBorder (widths : List Nat) (colCount : Nat) (w : Sink) :
    GoodRes w (renderTableTopBorder widths colCount w) := by
  simp only [renderTableTopBorder]
  repeat' first
    | apply goodRes_bind
    | apply goodRes_write
    | apply goodRes_pure
    | apply goodRes_rBorderGo
    | intro w1

theorem goodRes_rBottomBorder (widths : List Nat) (colCount : Nat) (w : Sink) :
    GoodRes w (renderTableBottomBorder widths colCount w) := by
  simp only [renderTableBottomBorder]
  repeat' first
    | apply goodRes_bind
    | apply goodRes_write
    | apply goodRes_pure
    | apply goodRes_rBorderGo
    | intro w1

theorem goodRes_rTableGo (ctx : RenderCtx) (widths : List Nat) (run : List Node)
    (w : Sink) : GoodRes w (renderTableGo ctx widths run w) := by
  induction run generalizing w with
  | nil => simp only [renderTableGo]; apply goodRes_pure
  | cons n rest ih =>
      cases n <;>
        (simp only [renderTableGo]
         repeat' first
           | apply ih
           | apply goodRes_rTableRow
           | apply goodRes_rTableHeaderSep
           | apply goodRes_rTableRowGo
           | apply goodRes_rTableHeaderGo
           | apply goodRes_rEach
           | apply goodRes_write
           | apply goodRes_pure
           | apply goodRes_bind
           | split
           | intro w1)

theorem goodRes_rTable (ctx : RenderCtx) (run : List Node) (w : Sink) :
    GoodRes w (renderTable ctx run w) := by
  simp only [renderTable]
  repeat' first
    | apply goodRes_rTopBorder
    | apply goodRes_rBottomBorder
    | apply goodRes_rBorderGo
    | apply goodRes_rTableGo
    | apply goodRes_write
    | apply goodRes_pure
    | apply goodRes_bind
    | split
    | intro w1

theorem goodRes_rNodes (ctx : RenderCtx) (nodes : List Node) (w : Sink) :
    GoodRes w (renderNodes ctx nodes w) := by
  cases nodes with
  | nil => simp only [renderNodes]; apply goodRes_pure
  | cons n rest =>
      simp only [renderNodes]
      split
      · apply goodRes_bind (goodRes_rTable _ _ _)
        intro w1
        apply goodRes_rNodes
      · apply goodRes_bind
        · apply goodRes_rNI
        · intro w1
          apply goodRes_rNodes
termination_by nodes.length
decreasing_by
  all_goals
    first
      | (rename_i hcell
         have ht := isTableNode_of_cell hcell
         simp only [List.length_drop, List.takeWhile_cons, ht, if_true,
           List.length_cons]
         omega)
      | (rename_i hcell
         have ht := isTableNode_of_cell hcell
         simp only [List.takeWhile_cons, ht, if_true, List.length_cons]
         omega)
      | (simp only [List.length_cons]; omega)
      | omega
      | simp

/-- A sink whose very first write fails with `"boom"`. -/
def failSink : Sink := ⟨fun _ => Option.some "boom", [], 0⟩

/-- C7: `render_markdown` fails exactly on sink write failure — with an
all-succeeding schedule it returns `Ok`; when it returns an error, that error
is the scheduled outcome of the first failing write attempt, every earlier
write slot having succeeded (so nothing is rendered past the failure); and the
Image arm ignores the image-display collaborator's outcome entirely, always
writing just the textual fallback line. -/
theorem render_error_model :
    (∀ (ctx : RenderCtx) (nodes : List Node) (w : Sink),
      (∀ k, w.sched k = Option.none) →
      ∃ w1, renderMarkdown ctx nodes w = .ok w1)
    ∧ (∀ (ctx : RenderCtx) (nodes : List Node) (w : Sink) (e : String),
        renderMarkdown ctx nodes w = .error e →
        ∃ k, w.count ≤ k ∧ w.sched k = Option.some e ∧
          ∀ j, w.count ≤ j → j < k → w.sched j = Option.none)
    ∧ (∀ (ctx : RenderCtx) (alt url : Str) (d : Nat) (inl : Bool) (w : Sink),
        renderNodeInline ctx (Node.image alt url) d inl w =
          wWrite w (if (trimStr alt).isEmpty then
              sgr "92" (S "🖼️ ") ++ S " " ++ sgr "4;92" url ++ S "\n"
            else sgr "92" (S "🖼️ ") ++ S " " ++ sgr "92" alt ++ S " (" ++
              sgr "90" url ++ S ")" ++ S "\n")) := by
  refine ⟨?_, ?_, ?_⟩
  · intro ctx nodes w hok
    have hg := goodRes_rNodes ctx nodes w
    cases hr : renderNodes ctx nodes w with
    | ok w1 => exact ⟨w1, hr⟩
    | error e =>
        rw [hr] at hg
        obtain ⟨k, -, hk2, -⟩ := hg
        rw [hok k] at hk2
        exact absurd hk2 (by simp)
  · intro ctx nodes w e hr
    have hg := goodRes_rNodes ctx nodes w
    rw [show renderMarkdown ctx nodes w = renderNodes ctx nodes w from rfl] at hr
    rw [hr] at hg
    exact hg
  · intro ctx alt url d inl w
    simp only [renderNodeInline]
    split <;> rfl

/-- Witness for `render_error_model`: an all-ok sink renders a rule document,
and the first-write failure of `failSink` is reported verbatim. -/
theorem render_error_model_witness :
    (∃ w1, renderMarkdown ctx0 [Node.horizontalRule] allOk = .ok w1)
    ∧ (∃ k, failSink.count ≤ k ∧ failSink.sched k = Option.some "boom" ∧
        ∀ j, failSink.count ≤ j → j < k → failSink.sched j = Option.none) := by
  constructor
  · exact render_error_model.1 ctx0 [Node.horizontalRule] allOk (fun k => rfl)
  · refine render_error_model.2.1 ctx0 [Node.horizontalRule] failSink "boom" ?_
    simp [renderMarkdown, renderNodes, renderNode, renderNodeInline, isTableCellNode,
      wWrite, failSink, Bind.bind, Except.bind, Pure.pure, Except.pure]
